import Mathlib

/-!
Shallow embedding of the ESPN NBA depth-chart core: the markup parser
(`scrapeESPNDepthChart`), the backup resolver (`getBackupForPlayer`) and the
TTL cache (`getTeamDepthChart`), translated from `src/espn-depth-scraper.js`
and `src/depth-chart-integration.js`.

Markup is modelled at the level the scraper observes it through cheerio: an
optional table holding the header-cell texts (the `th` texts of the first
`thead tr`) and the body rows (each a list of `td` cells, a cell carrying its
full text and an optional navigable link).  Strings are Lean `String`s; the
JavaScript string operations used by the code (`trim`, `toLowerCase`,
`toUpperCase`, `includes`, the `/\x2fid\x2f(\d+)\x2f/` match) are given
explicit executable definitions below.  Time is `Int` milliseconds and the
injected retrieval-plus-parse step of the cache is passed in as an
`Except FetchError DepthChart` argument; a call's observable behaviour is the
returned value, the updated cache and the number of retrievals performed.
-/

/-- JavaScript `a.startsWith(b)` on character lists: `startsWithChars needle hay`
is true when `needle` is an initial segment of `hay`. -/
def startsWithChars : List Char → List Char → Bool
  | [], _ => true
  | _ :: _, [] => false
  | a :: as, b :: bs => a == b && startsWithChars as bs

/-- Character-list core of JavaScript `hay.includes(needle)`: `needle` occurs
contiguously somewhere in `hay`. -/
def hasSubChars (needle : List Char) : List Char → Bool
  | [] => startsWithChars needle []
  | c :: t => startsWithChars needle (c :: t) || hasSubChars needle t

/-- JavaScript `hay.includes(needle)`. -/
def strIncludes (hay needle : String) : Bool :=
  hasSubChars needle.data hay.data

/-- JavaScript `s.toLowerCase()` (ASCII letters, which is all the scraper's
inputs use). -/
def strLower (s : String) : String :=
  ⟨s.data.map Char.toLower⟩

/-- JavaScript `s.toUpperCase()` (ASCII letters). -/
def strUpper (s : String) : String :=
  ⟨s.data.map Char.toUpper⟩

/-- JavaScript `s.trim()`: strip whitespace from both ends. -/
def strTrim (s : String) : String :=
  ⟨((s.data.dropWhile Char.isWhitespace).reverse.dropWhile
      Char.isWhitespace).reverse⟩

deriving instance DecidableEq for Except

/-- Mathematical statement of substring containment: `needle` occurs
contiguously in `hay`. -/
def IsSubstring (needle hay : String) : Prop :=
  ∃ pre post : List Char, hay.data = pre ++ needle.data ++ post

/-- Longest digit run at the front of a character list, with the remainder. -/
def takeDigits : List Char → List Char × List Char
  | [] => ([], [])
  | c :: t =>
    if c.isDigit then
      let (ds, r) := takeDigits t
      (c :: ds, r)
    else
      ([], c :: t)

/-- Attempt of the regex `\x2fid\x2f(\d+)\x2f` at the head of the list: the
literal `/id/`, then one or more digits (captured), then `/`. -/
def matchIdAt : List Char → Option String
  | '/' :: 'i' :: 'd' :: '/' :: rest =>
    match takeDigits rest with
    | ([], _) => none
    | (d :: ds, '/' :: _) => some ⟨d :: ds⟩
    | (_ :: _, _) => none
  | _ => none

/-- JavaScript `url.match(/\x2fid\x2f(\d+)\x2f/)?.[1]`: the capture of the
leftmost match of the pattern, if any. -/
def findIdMatch : List Char → Option String
  | [] => none
  | c :: t =>
    match matchIdAt (c :: t) with
    | some s => some s
    | none => findIdMatch t

/-- A navigable link inside a table cell: its text and `href` attribute. -/
structure Link where
  text : String
  href : Option String
deriving Repr, DecidableEq

/-- A `td` cell: its full text and the link it contains, if any. -/
structure Cell where
  text : String
  link : Option Link
deriving Repr, DecidableEq

/-- The depth-chart table as the scraper reads it: the `th` texts of the first
header row, and the `tbody` rows. -/
structure HtmlTable where
  headerCells : List String
  bodyRows : List (List Cell)
deriving Repr, DecidableEq

/-- A page of markup: the `.Table` selector either finds the depth-chart table
or nothing. -/
structure Markup where
  table : Option HtmlTable
deriving Repr, DecidableEq

/-- Injury status of an entry (`null` in the source is `NONE`). -/
inductive InjuryStatus
  | NONE
  | OUT
  | DAY_TO_DAY
deriving Repr, DecidableEq

/-- One player slot of a position's depth sequence. -/
structure DepthEntry where
  depth : Nat
  name : String
  espnId : Option String
  injuryStatus : InjuryStatus
deriving Repr, DecidableEq

/-- A parsed depth chart.  `positions` is the ordered mapping from position
label to depth sequence; JavaScript object insertion order is modelled as an
association list in row order (the source never produces duplicate labels from
distinct header cells with distinct texts, and the claims do not exercise
duplicate labels). -/
structure DepthChart where
  team : String
  positions : List (String × List DepthEntry)
deriving Repr, DecidableEq

/-- Parse failure: the `.Table` selector matched nothing
(`Could not find depth chart table`). -/
inductive ParseError
  | tableNotFound
deriving Repr, DecidableEq

/-- Header scan of the scraper: trim each `th` text and keep the non-empty
texts that are not rank labels, in encountered order. -/
def headerPositions (headerCells : List String) : List String :=
  (headerCells.map strTrim).filter
    (fun text =>
      text != "" && text != "Starter" && text != "2nd" && text != "3rd" &&
        text != "4th" && text != "5th")

/-- Cell step of the scraper's row loop: a cell contributes an entry only when
it holds a link; `depth` is `colIndex + 1`, `name` the link's trimmed text,
`espnId` the numeric-id capture from the `href`, and `injuryStatus` the
substring heuristic on the cell's full text. -/
def parseCell (colIndex : Nat) (cell : Cell) : Option DepthEntry :=
  match cell.link with
  | none => none
  | some link =>
    let playerName := strTrim link.text
    let playerId :=
      match link.href with
      | none => none
      | some url => findIdMatch url.data
    let injuryStatus :=
      if strIncludes cell.text "O" then InjuryStatus.OUT
      else if strIncludes cell.text "DD" then InjuryStatus.DAY_TO_DAY
      else InjuryStatus.NONE
    some
      { depth := colIndex + 1
        name := playerName
        espnId := playerId
        injuryStatus := injuryStatus }

/-- Row loop of the scraper from column index `i` on: cells left to right, each
link-bearing cell contributing an entry, link-less cells skipped. -/
def parseRowFrom (i : Nat) : List Cell → List DepthEntry
  | [] => []
  | c :: rest =>
    match parseCell i c with
    | none => parseRowFrom (i + 1) rest
    | some e => e :: parseRowFrom (i + 1) rest

/-- Entries contributed by one body row. -/
def parseRow (cells : List Cell) : List DepthEntry :=
  parseRowFrom 0 cells

/-- Body-row loop of the scraper from row index `r` on: row `r` is associated
with the header label at index `r`; a row whose index has no label is skipped. -/
def parseRowsFrom (labels : List String) (r : Nat) :
    List (List Cell) → List (String × List DepthEntry)
  | [] => []
  | row :: rest =>
    match labels[r]? with
    | none => parseRowsFrom labels (r + 1) rest
    | some pos => (pos, parseRow row) :: parseRowsFrom labels (r + 1) rest

/-- The parser `scrapeESPNDepthChart` of `src/espn-depth-scraper.js`, with the
already-retrieved markup passed in (retrieval is the injected capability). -/
def scrapeESPNDepthChart (teamAbbr : String) (m : Markup) :
    Except ParseError DepthChart :=
  match m.table with
  | none => Except.error ParseError.tableNotFound
  | some table =>
    let positions := headerPositions table.headerCells
    Except.ok
      { team := strUpper teamAbbr
        positions := parseRowsFrom positions 0 table.bodyRows }

/-- Resolver output (`getBackupForPlayer`'s return object). -/
structure BackupResult where
  position : String
  injuredPlayer : DepthEntry
  primaryBackup : Option DepthEntry
  allBackups : List DepthEntry
deriving Repr, DecidableEq

/-- The resolver's match predicate:
`p.name.toLowerCase().includes(playerName.toLowerCase())`. -/
def nameMatches (playerName : String) (p : DepthEntry) : Bool :=
  strIncludes (strLower p.name) (strLower playerName)

/-- `players.findIndex(...)` step of the resolver: the first matching entry of
the sequence, together with the entries after it. -/
def findInPlayers (playerName : String) :
    List DepthEntry → Option (DepthEntry × List DepthEntry)
  | [] => none
  | p :: rest =>
    if nameMatches playerName p then some (p, rest)
    else findInPlayers playerName rest

/-- Position loop of the resolver: positions in stored order, first position
holding a match wins; `primaryBackup` is `players[playerIndex + 1] || null`
and `allBackups` is `players.slice(playerIndex + 1, playerIndex + 4)`. -/
def findInPositions (playerName : String) :
    List (String × List DepthEntry) → Option BackupResult
  | [] => none
  | (position, players) :: rest =>
    match findInPlayers playerName players with
    | none => findInPositions playerName rest
    | some (player, after) =>
      some
        { position := position
          injuredPlayer := player
          primaryBackup := after.head?
          allBackups := after.take 3 }

/-- The resolver `getBackupForPlayer` of `src/espn-depth-scraper.js`
(`none` is the source's `null`, i.e. NotFound). -/
def getBackupForPlayer (depthChart : DepthChart) (playerName : String) :
    Option BackupResult :=
  findInPositions playerName depthChart.positions

/-- The `TEAM_ID_TO_ESPN` mapping of `src/depth-chart-integration.js`. -/
def TEAM_ID_TO_ESPN : List (Nat × String) :=
  [(1, "atl"), (2, "bos"), (3, "bkn"), (4, "cha"), (5, "chi"), (6, "cle"),
   (7, "dal"), (8, "den"), (9, "det"), (10, "gs"), (11, "hou"), (12, "ind"),
   (13, "lac"), (14, "lal"), (15, "mem"), (16, "mia"), (17, "mil"),
   (18, "min"), (19, "no"), (20, "ny"), (21, "okc"), (22, "orl"),
   (23, "phi"), (24, "phx"), (25, "por"), (26, "sac"), (27, "sa"),
   (28, "tor"), (29, "utah"), (30, "wsh")]

/-- `CACHE_TTL = 6 * 60 * 60 * 1000` milliseconds. -/
def CACHE_TTL : Int := 6 * 60 * 60 * 1000

/-- One record of `depthChartCache`: the parsed chart and the `Date.now()` of
the successful refresh that stored it. -/
structure CacheRecord where
  data : DepthChart
  timestamp : Int
deriving Repr, DecidableEq

/-- The `depthChartCache` map, keyed by ESPN team code; a JavaScript `Map`
keeps a key's original insertion position on overwrite, which `cacheSet`
mirrors. -/
abbrev DepthChartCache : Type :=
  List (String × CacheRecord)

/-- `depthChartCache.get(key)`. -/
def cacheGet (c : DepthChartCache) (k : String) : Option CacheRecord :=
  c.lookup k

/-- `depthChartCache.set(key, record)`. -/
def cacheSet : DepthChartCache → String → CacheRecord → DepthChartCache
  | [], k, v => [(k, v)]
  | (k', v') :: rest, k, v =>
    if k = k' then (k, v) :: rest else (k', v') :: cacheSet rest k v

/-- The two ways the awaited `scrapeESPNDepthChart(espnCode)` step can fail:
the page retrieval throws, or the parser throws.  The cache's `catch` sees
only that an error was thrown. -/
inductive FetchError
  | retrievalError
  | parseError
deriving Repr, DecidableEq

/-- Observable outcome of one `getTeamDepthChart` call: the returned value
(`none` is the source's `null`, i.e. Unavailable), the cache contents after
the call, and how many retrievals the call performed. -/
structure CacheCallResult where
  result : Option DepthChart
  cache : DepthChartCache
  fetches : Nat
deriving Repr, DecidableEq

/-- Fetch-and-store branch of `getTeamDepthChart`: one retrieval; on success
the record for the team is replaced (value and timestamp) and the new chart
returned, on failure the cache is untouched and `null` returned. -/
def fetchAndStore (espnCode : String) (cache : DepthChartCache) (now : Int)
    (fetchResult : Except FetchError DepthChart) : CacheCallResult :=
  match fetchResult with
  | Except.ok chart =>
    { result := some chart
      cache := cacheSet cache espnCode { data := chart, timestamp := now }
      fetches := 1 }
  | Except.error _ =>
    { result := none
      cache := cache
      fetches := 1 }

/-- The cache front `getTeamDepthChart` of `src/depth-chart-integration.js`.
`now` is `Date.now()` and `fetchResult` the outcome the injected
retrieval-plus-parse step would produce if invoked on this call. -/
def getTeamDepthChart (teamId : Nat) (cache : DepthChartCache) (now : Int)
    (fetchResult : Except FetchError DepthChart) : CacheCallResult :=
  match TEAM_ID_TO_ESPN.lookup teamId with
  | none => { result := none, cache := cache, fetches := 0 }
  | some espnCode =>
    match cacheGet cache espnCode with
    | some cached =>
      if now - cached.timestamp < CACHE_TTL then
        { result := some cached.data, cache := cache, fetches := 0 }
      else
        fetchAndStore espnCode cache now fetchResult
    | none => fetchAndStore espnCode cache now fetchResult

/-- A cell whose whole content is one navigable link. -/
def mkLinkCell (nm href : String) : Cell :=
  { text := nm, link := some { text := nm, href := some href } }

/-- A link-less cell (an empty depth slot). -/
def emptyCell : Cell :=
  { text := "", link := none }

/-- Concrete markup whose single body row has link-less cells at columns 1 and
3, so the parsed depths are 2 and 4. -/
def gapMarkup : Markup :=
  { table := some
      { headerCells := ["PG", "Starter", "2nd", "3rd", "4th"]
        bodyRows :=
          [[emptyCell,
            mkLinkCell "Alpha Smith" "/nba/player/_/id/17/alpha-smith",
            emptyCell,
            mkLinkCell "Beta Jones" "/nba/player/_/id/42/beta-jones"]] } }

/-- The entries the parser produces from `gapMarkup`'s only row. -/
def gapEntries : List DepthEntry :=
  [{ depth := 2, name := "Alpha Smith", espnId := some "17",
     injuryStatus := InjuryStatus.NONE },
   { depth := 4, name := "Beta Jones", espnId := some "42",
     injuryStatus := InjuryStatus.NONE }]

/-- The chart the parser produces from `gapMarkup`. -/
def gapChart : DepthChart :=
  { team := "ATL", positions := [("PG", gapEntries)] }

/-- Concrete markup whose header row holds only rank tokens. -/
def rankOnlyMarkup : Markup :=
  { table := some
      { headerCells := ["Starter", "2nd", "3rd"]
        bodyRows :=
          [[mkLinkCell "Alpha Smith" "/nba/player/_/id/17/alpha-smith"],
           [mkLinkCell "Beta Jones" "/nba/player/_/id/42/beta-jones"]] } }

/-- An entry with the given depth and name and nothing else. -/
def plainEntry (d : Nat) (nm : String) : DepthEntry :=
  { depth := d, name := nm, espnId := none,
    injuryStatus := InjuryStatus.NONE }

/-- A small chart holding an entry named `Trae Young` behind one other guard. -/
def traeChart : DepthChart :=
  { team := "ATL"
    positions :=
      [("PG", [plainEntry 1 "Dyson Daniels", plainEntry 2 "Trae Young"]),
       ("SG", [plainEntry 1 "Nickeil Alexander-Walker"])] }

/-- The five-deep centre rotation used to exercise the resolver's candidate
window. -/
def deepPlayers : List DepthEntry :=
  [plainEntry 1 "Unus Adams", plainEntry 2 "Duo Baker",
   plainEntry 3 "Tres Clark", plainEntry 4 "Quat Davis",
   plainEntry 5 "Quin Evans"]

/-- A chart with one five-deep position. -/
def deepChart : DepthChart :=
  { team := "BOS", positions := [("C", deepPlayers)] }

/-- A chart whose first position is empty and whose second is not. -/
def emptyFirstChart : DepthChart :=
  { team := "DAL"
    positions := [("PG", []), ("SG", [plainEntry 1 "Kyrie Irving"])] }

/-- A cell whose text carries the `O` status marker. -/
def statusCellOut : Cell :=
  { text := "Alpha Smith O"
    link := some { text := "Alpha Smith", href := some "/nba/player/_/id/17/alpha-smith" } }

/-- The entry parsed from `statusCellOut` at column 0. -/
def statusEntryOut : DepthEntry :=
  { depth := 1, name := "Alpha Smith", espnId := some "17",
    injuryStatus := InjuryStatus.OUT }

/-- A minimal chart value for the cache examples. -/
def sampleChart : DepthChart :=
  { team := "ATL", positions := [] }

/-- A distinct chart value standing for a freshly refetched parse. -/
def refetchedChart : DepthChart :=
  { team := "ATL", positions := [("PG", [plainEntry 1 "Trae Young"])] }

/-- A one-record cache for team code `atl`, stored at time 1000. -/
def sampleCache : DepthChartCache :=
  [("atl", { data := sampleChart, timestamp := 1000 })]

/-- A character list starts with `n` exactly when it splits as `n ++ t`. -/
theorem startsWithChars_iff (n : List Char) :
    ∀ h : List Char, startsWithChars n h = true ↔ ∃ t, h = n ++ t := by
  induction n with
  | nil =>
    intro h
    simp [startsWithChars]
  | cons a as ih =>
    intro h
    cases h with
    | nil =>
      simp [startsWithChars]
    | cons b bs =>
      simp only [startsWithChars, Bool.and_eq_true, beq_iff_eq]
      constructor
      · rintro ⟨rfl, hs⟩
        obtain ⟨t, rfl⟩ := (ih bs).mp hs
        exact ⟨t, rfl⟩
      · rintro ⟨t, ht⟩
        rw [List.cons_append] at ht
        injection ht with h1 h2
        exact ⟨h1.symm, (ih bs).mpr ⟨t, h2⟩⟩

/-- `hasSubChars` is contiguous-occurrence. -/
theorem hasSubChars_iff (n : List Char) :
    ∀ h : List Char, hasSubChars n h = true ↔ ∃ pre post, h = pre ++ (n ++ post) := by
  intro h
  induction h with
  | nil =>
    simp only [hasSubChars, startsWithChars_iff]
    constructor
    · rintro ⟨t, ht⟩
      exact ⟨[], t, ht⟩
    · rintro ⟨pre, post, hp⟩
      rcases List.append_eq_nil.mp hp.symm with ⟨rfl, h2⟩
      exact ⟨post, by simpa using hp⟩
  | cons c t ih =>
    simp only [hasSubChars, Bool.or_eq_true, startsWithChars_iff, ih]
    constructor
    · rintro (⟨tl, htl⟩ | ⟨pre, post, hp⟩)
      · exact ⟨[], tl, by simpa using htl⟩
      · exact ⟨c :: pre, post, by simp [hp]⟩
    · rintro ⟨pre, post, hp⟩
      cases pre with
      | nil =>
        exact Or.inl ⟨post, by simpa using hp⟩
      | cons p ps =>
        rw [List.cons_append] at hp
        injection hp with h1 h2
        exact Or.inr ⟨ps, post, h2⟩

/-- The executable `strIncludes` decides mathematical substring containment. -/
theorem strIncludes_iff (hay needle : String) :
    strIncludes hay needle = true ↔ IsSubstring needle hay := by
  unfold strIncludes IsSubstring
  rw [hasSubChars_iff]
  constructor
  · rintro ⟨pre, post, hp⟩
    exact ⟨pre, post, by simp [hp, List.append_assoc]⟩
  · rintro ⟨pre, post, hp⟩
    exact ⟨pre, post, by simp [hp, List.append_assoc]⟩

/-- The empty string is a substring of everything (`hay.includes("")`). -/
theorem strIncludes_empty (hay : String) : strIncludes hay "" = true := by
  rw [strIncludes_iff]
  exact ⟨[], hay.data, by simp⟩

/-- Helper: a successful index lookup splits `drop` as a cons. -/
theorem drop_cons_of_getElem? {α : Type} (l : List α) (n : Nat) (a : α)
    (h : l[n]? = some a) : l.drop n = a :: l.drop (n + 1) := by
  have hn : n < l.length := by
    by_contra hc
    rw [List.getElem?_eq_none (Nat.le_of_not_lt hc)] at h
    exact Option.noConfusion h
  rw [List.drop_eq_getElem_cons hn]
  rw [List.getElem?_eq_getElem hn] at h
  simp only [Option.some.injEq] at h
  rw [h]

/-- Helper: the head of a three-element window is the head of the window's
source. -/
theorem head?_take_three {α : Type} (l : List α) : (l.take 3).head? = l.head? := by
  cases l <;> rfl

/-- The scan of one position finds nothing exactly when no entry matches. -/
theorem findInPlayers_eq_none (q : String) :
    ∀ l : List DepthEntry,
      findInPlayers q l = none ↔ ∀ p ∈ l, nameMatches q p = false := by
  intro l
  induction l with
  | nil => simp [findInPlayers]
  | cons a t ih =>
    cases hm : nameMatches q a with
    | true =>
      rw [findInPlayers, if_pos hm]
      constructor
      · intro h
        exact Option.noConfusion h
      · intro h
        rw [h a (List.mem_cons_self a t)] at hm
        exact Bool.noConfusion hm
    | false =>
      rw [findInPlayers, if_neg (by simp [hm]), ih]
      constructor
      · intro h p hp
        rcases List.mem_cons.mp hp with rfl | hp'
        · exact hm
        · exact h p hp'
      · intro h p hp
        exact h p (List.mem_cons_of_mem a hp)

/-- A successful scan of one position pinpoints the first matching index and
returns exactly the entries after it. -/
theorem findInPlayers_eq_some (q : String) :
    ∀ (l : List DepthEntry) (p : DepthEntry) (rest : List DepthEntry),
      findInPlayers q l = some (p, rest) →
      ∃ i, l[i]? = some p ∧ nameMatches q p = true ∧
        (∀ j p', j < i → l[j]? = some p' → nameMatches q p' = false) ∧
        rest = l.drop (i + 1) := by
  intro l
  induction l with
  | nil =>
    intro p rest h
    exact Option.noConfusion h
  | cons a t ih =>
    intro p rest h
    cases hm : nameMatches q a with
    | true =>
      rw [findInPlayers, if_pos hm] at h
      injection h with h'
      injection h' with h1 h2
      subst h1
      subst h2
      refine ⟨0, List.getElem?_cons_zero, hm, ?_, rfl⟩
      intro j p' hj
      exact absurd hj (Nat.not_lt_zero j)
    | false =>
      rw [findInPlayers, if_neg (by simp [hm])] at h
      obtain ⟨i, hget, hmp, hbef, hrest⟩ := ih p rest h
      refine ⟨i + 1, ?_, hmp, ?_, hrest⟩
      · rw [List.getElem?_cons_succ]
        exact hget
      · intro j p' hj hgj
        cases j with
        | zero =>
          rw [List.getElem?_cons_zero] at hgj
          injection hgj with hg
          subst hg
          exact hm
        | succ j' =>
          rw [List.getElem?_cons_succ] at hgj
          exact hbef j' p' (Nat.lt_of_succ_lt_succ hj) hgj

/-- The position scan finds nothing exactly when no entry of any position
matches. -/
theorem findInPositions_eq_none (q : String) :
    ∀ ps : List (String × List DepthEntry),
      findInPositions q ps = none ↔
        ∀ pe ∈ ps, ∀ p ∈ pe.2, nameMatches q p = false := by
  intro ps
  induction ps with
  | nil => simp [findInPositions]
  | cons pe rest ih =>
    obtain ⟨position, players⟩ := pe
    cases hfp : findInPlayers q players with
    | none =>
      rw [findInPositions, hfp, ih]
      constructor
      · intro h pe' hpe'
        rcases List.mem_cons.mp hpe' with rfl | hpe''
        · exact (findInPlayers_eq_none q players).mp hfp
        · exact h pe' hpe''
      · intro h pe' hpe'
        exact h pe' (List.mem_cons_of_mem _ hpe')
    | some pr =>
      obtain ⟨p0, after⟩ := pr
      rw [findInPositions, hfp]
      constructor
      · intro h
        exact Option.noConfusion h
      · intro h
        obtain ⟨i, hget, hmp, _, _⟩ := findInPlayers_eq_some q players p0 after hfp
        have hmem : p0 ∈ players := List.getElem?_mem hget
        have := h (position, players) (List.mem_cons_self _ _) p0 hmem
        rw [this] at hmp
        exact Bool.noConfusion hmp

/-- A successful position scan pinpoints the first position holding a match,
and the result's fields come from that position's entry scan. -/
theorem findInPositions_eq_some (q : String) :
    ∀ (ps : List (String × List DepthEntry)) (r : BackupResult),
      findInPositions q ps = some r →
      ∃ k players, ps[k]? = some (r.position, players) ∧
        (∀ (j : Nat) (pe : String × List DepthEntry), j < k → ps[j]? = some pe →
          ∀ p ∈ pe.2, nameMatches q p = false) ∧
        ∃ after, findInPlayers q players = some (r.injuredPlayer, after) ∧
          r.primaryBackup = after.head? ∧ r.allBackups = after.take 3 := by
  intro ps
  induction ps with
  | nil =>
    intro r h
    exact Option.noConfusion h
  | cons pe rest ih =>
    obtain ⟨position, players⟩ := pe
    intro r h
    cases hfp : findInPlayers q players with
    | none =>
      rw [findInPositions, hfp] at h
      obtain ⟨k, players', hk, hbef, after, hfp', hpb, hab⟩ := ih r h
      refine ⟨k + 1, players', ?_, ?_, after, hfp', hpb, hab⟩
      · rw [List.getElem?_cons_succ]
        exact hk
      · intro j pe' hj hgj
        cases j with
        | zero =>
          rw [List.getElem?_cons_zero] at hgj
          injection hgj with hg
          subst hg
          exact (findInPlayers_eq_none q players).mp hfp
        | succ j' =>
          rw [List.getElem?_cons_succ] at hgj
          exact hbef j' pe' (Nat.lt_of_succ_lt_succ hj) hgj
    | some pr =>
      obtain ⟨p0, after⟩ := pr
      rw [findInPositions, hfp] at h
      injection h with h'
      subst h'
      refine ⟨0, players, List.getElem?_cons_zero, ?_, after, hfp, rfl, rfl⟩
      intro j pe' hj
      exact absurd hj (Nat.not_lt_zero j)

/-- An entry contributed at column index `i` carries depth `i + 1`. -/
theorem parseCell_depth (i : Nat) (c : Cell) (e : DepthEntry)
    (h : parseCell i c = some e) : e.depth = i + 1 := by
  unfold parseCell at h
  cases hl : c.link with
  | none =>
    rw [hl] at h
    exact Option.noConfusion h
  | some link =>
    rw [hl] at h
    injection h with h'
    subst h'
    rfl

/-- Every entry contributed by the row loop from column `i` on has depth
above `i`. -/
theorem parseRowFrom_depth_gt :
    ∀ (cells : List Cell) (i : Nat) (e : DepthEntry),
      e ∈ parseRowFrom i cells → i < e.depth := by
  intro cells
  induction cells with
  | nil =>
    intro i e h
    exact absurd h (List.not_mem_nil e)
  | cons c rest ih =>
    intro i e h
    rw [parseRowFrom] at h
    cases hc : parseCell i c with
    | none =>
      rw [hc] at h
      exact Nat.lt_of_succ_lt (ih (i + 1) e h)
    | some e0 =>
      rw [hc] at h
      rcases List.mem_cons.mp h with rfl | h'
      · rw [parseCell_depth i c e hc]
        exact Nat.lt_succ_self i
      · exact Nat.lt_of_succ_lt (ih (i + 1) e h')

/-- The depths contributed by the row loop are strictly increasing. -/
theorem parseRowFrom_chain :
    ∀ (cells : List Cell) (i : Nat),
      List.Chain' (· < ·) ((parseRowFrom i cells).map DepthEntry.depth) := by
  intro cells
  induction cells with
  | nil =>
    intro i
    simp [parseRowFrom]
  | cons c rest ih =>
    intro i
    rw [parseRowFrom]
    cases hc : parseCell i c with
    | none => exact ih (i + 1)
    | some e0 =>
      rw [List.map_cons, List.chain'_cons']
      refine ⟨?_, ih (i + 1)⟩
      intro y hy
      have hmem : y ∈ (parseRowFrom (i + 1) rest).map DepthEntry.depth :=
        List.mem_of_mem_head? hy
      obtain ⟨e, he, rfl⟩ := List.mem_map.mp hmem
      have h1 := parseRowFrom_depth_gt rest (i + 1) e he
      have h2 := parseCell_depth i c e0 hc
      omega

/-- Every entry contributed by the row loop from column `i` sits in the cell
at 0-based column `e.depth - 1` of the row, and is exactly what the cell step
produces there. -/
theorem parseRowFrom_mem_get :
    ∀ (cells : List Cell) (i : Nat) (e : DepthEntry),
      e ∈ parseRowFrom i cells →
      ∃ c, cells[e.depth - 1 - i]? = some c ∧ parseCell (e.depth - 1) c = some e := by
  intro cells
  induction cells with
  | nil =>
    intro i e h
    exact absurd h (List.not_mem_nil e)
  | cons c rest ih =>
    intro i e h
    rw [parseRowFrom] at h
    cases hc : parseCell i c with
    | none =>
      rw [hc] at h
      obtain ⟨c', hg, hp⟩ := ih (i + 1) e h
      have hgt := parseRowFrom_depth_gt rest (i + 1) e h
      refine ⟨c', ?_, hp⟩
      have heq : e.depth - 1 - i = (e.depth - 1 - (i + 1)) + 1 := by omega
      rw [heq, List.getElem?_cons_succ]
      exact hg
    | some e0 =>
      rw [hc] at h
      rcases List.mem_cons.mp h with rfl | h'
      · have hd : e.depth = i + 1 := parseCell_depth i c e hc
        refine ⟨c, ?_, ?_⟩
        · have h0 : e.depth - 1 - i = 0 := by omega
          rw [h0]
          exact List.getElem?_cons_zero
        · have h1 : e.depth - 1 = i := by omega
          rw [h1]
          exact hc
      · obtain ⟨c', hg, hp⟩ := ih (i + 1) e h'
        have hgt := parseRowFrom_depth_gt rest (i + 1) e h'
        refine ⟨c', ?_, hp⟩
        have heq : e.depth - 1 - i = (e.depth - 1 - (i + 1)) + 1 := by omega
        rw [heq, List.getElem?_cons_succ]
        exact hg

/-- The body-row loop pairs labels with parsed rows positionally: from row
index `r` on it is exactly `zip` of the remaining labels with the parsed
rows, so a row whose index has no label is skipped and skipping only ever
drops a suffix. -/
theorem parseRowsFrom_eq_zip (labels : List String) :
    ∀ (rows : List (List Cell)) (r : Nat),
      parseRowsFrom labels r rows = (labels.drop r).zip (rows.map parseRow) := by
  intro rows
  induction rows with
  | nil =>
    intro r
    simp [parseRowsFrom]
  | cons row rest ih =>
    intro r
    rw [parseRowsFrom]
    cases hg : labels[r]? with
    | none =>
      have hlen : labels.length ≤ r := by
        by_contra hc
        rw [List.getElem?_eq_getElem (Nat.lt_of_not_le hc)] at hg
        exact Option.noConfusion hg
      rw [ih (r + 1), List.drop_eq_nil_of_le hlen,
        List.drop_eq_nil_of_le (Nat.le_succ_of_le hlen)]
      rfl
    | some pos =>
      rw [ih (r + 1), drop_cons_of_getElem? labels r pos hg]
      rfl

/-- C7: when the markup holds no depth-chart table, the parse fails with the
table-not-found error and yields no chart. -/
theorem C7_theorem (team : String) (m : Markup) (h : m.table = none) :
    scrapeESPNDepthChart team m = Except.error ParseError.tableNotFound := by
  unfold scrapeESPNDepthChart
  rw [h]

/-- C7 witness at a concrete table-less markup. -/
theorem C7_witness :
    scrapeESPNDepthChart "atl" { table := none } =
      Except.error ParseError.tableNotFound :=
  C7_theorem "atl" { table := none } rfl

/-- C10: a team identifier outside the team-code mapping yields `null`
immediately: no retrieval, cache untouched. -/
theorem C10_theorem (teamId : Nat) (cache : DepthChartCache) (now : Int)
    (fr : Except FetchError DepthChart)
    (h : TEAM_ID_TO_ESPN.lookup teamId = none) :
    getTeamDepthChart teamId cache now fr =
      { result := none, cache := cache, fetches := 0 } := by
  unfold getTeamDepthChart
  rw [h]

/-- C10 witness at the unmapped team identifier 31. -/
theorem C10_witness :
    getTeamDepthChart 31 sampleCache 1000 (Except.ok refetchedChart) =
      { result := none, cache := sampleCache, fetches := 0 } :=
  C10_theorem 31 sampleCache 1000 (Except.ok refetchedChart) (by decide)

/-- C5: a failed stale refresh leaves the record untouched and returns the
one `null` outcome, identically for a retrieval error and a parse error. -/
theorem C5_theorem (teamId : Nat) (code : String) (cache : DepthChartCache)
    (cr : CacheRecord) (now : Int) (err : FetchError)
    (hcode : TEAM_ID_TO_ESPN.lookup teamId = some code)
    (hrec : cacheGet cache code = some cr)
    (hstale : CACHE_TTL ≤ now - cr.timestamp) :
    getTeamDepthChart teamId cache now (Except.error err) =
      { result := none, cache := cache, fetches := 1 } := by
  unfold getTeamDepthChart
  simp only [hcode, hrec]
  rw [if_neg (not_lt.mpr hstale)]
  rfl

/-- C5 witness: both failure kinds at a stale record give the same untouched
cache and `null` result. -/
theorem C5_witness :
    getTeamDepthChart 1 sampleCache (1000 + CACHE_TTL)
        (Except.error FetchError.retrievalError) =
      { result := none, cache := sampleCache, fetches := 1 } ∧
    getTeamDepthChart 1 sampleCache (1000 + CACHE_TTL)
        (Except.error FetchError.parseError) =
      { result := none, cache := sampleCache, fetches := 1 } :=
  ⟨C5_theorem 1 "atl" sampleCache { data := sampleChart, timestamp := 1000 }
      (1000 + CACHE_TTL) FetchError.retrievalError (by decide) (by decide)
      (by decide),
   C5_theorem 1 "atl" sampleCache { data := sampleChart, timestamp := 1000 }
      (1000 + CACHE_TTL) FetchError.parseError (by decide) (by decide)
      (by decide)⟩

/-- C4: with a cached record, a fresh call returns the cached value with zero
retrievals and an unchanged cache; a stale call performs exactly one
retrieval and, on success, replaces the record (value and timestamp) and
returns the new value. -/
theorem C4_theorem (teamId : Nat) (code : String) (cache : DepthChartCache)
    (cr : CacheRecord) (now : Int) (fr : Except FetchError DepthChart)
    (hcode : TEAM_ID_TO_ESPN.lookup teamId = some code)
    (hrec : cacheGet cache code = some cr) :
    (now - cr.timestamp < CACHE_TTL →
      getTeamDepthChart teamId cache now fr =
        { result := some cr.data, cache := cache, fetches := 0 }) ∧
    (CACHE_TTL ≤ now - cr.timestamp →
      (getTeamDepthChart teamId cache now fr).fetches = 1 ∧
      ∀ chart, fr = Except.ok chart →
        getTeamDepthChart teamId cache now fr =
          { result := some chart
            cache := cacheSet cache code { data := chart, timestamp := now }
            fetches := 1 }) := by
  unfold getTeamDepthChart
  simp only [hcode, hrec]
  constructor
  · intro hfresh
    rw [if_pos hfresh]
  · intro hstale
    rw [if_neg (not_lt.mpr hstale)]
    constructor
    · unfold fetchAndStore
      cases fr <;> rfl
    · intro chart hc
      subst hc
      rfl

/-- C4 witness: a fresh call (100 ms after the store) serves the cache with
zero retrievals, and a call exactly at the TTL boundary refetches once and
replaces the record. -/
theorem C4_witness :
    getTeamDepthChart 1 sampleCache 1100 (Except.ok refetchedChart) =
      { result := some sampleChart, cache := sampleCache, fetches := 0 } ∧
    getTeamDepthChart 1 sampleCache (1000 + CACHE_TTL)
        (Except.ok refetchedChart) =
      { result := some refetchedChart
        cache := [("atl", { data := refetchedChart, timestamp := 1000 + CACHE_TTL })]
        fetches := 1 } :=
  ⟨(C4_theorem 1 "atl" sampleCache { data := sampleChart, timestamp := 1000 }
      1100 (Except.ok refetchedChart) (by decide) (by decide)).1 (by decide),
   ((C4_theorem 1 "atl" sampleCache { data := sampleChart, timestamp := 1000 }
      (1000 + CACHE_TTL) (Except.ok refetchedChart) (by decide) (by decide)).2
        (by decide)).2 refetchedChart rfl⟩

/-- The header scan is the claim's filter: trimmed texts, minus the empty
text and the five rank tokens, in encountered order. -/
theorem headerPositions_eq_filter (hc : List String) :
    headerPositions hc = (hc.map strTrim).filter
      (fun s => decide (¬ (s = "" ∨ s = "Starter" ∨ s = "2nd" ∨ s = "3rd" ∨
        s = "4th" ∨ s = "5th"))) := by
  unfold headerPositions
  apply List.filter_congr
  intro s _
  rw [Bool.eq_iff_iff]
  simp only [Bool.and_eq_true, bne_iff_ne, ne_eq, decide_eq_true_eq]
  tauto

/-- C6: with a table present the parse succeeds, the chart's positions are
exactly the header-derived labels zipped positionally with the parsed body
rows (rows with no label at their index are skipped, not failed), and a
header yielding no labels gives an empty positions mapping. -/
theorem C6_theorem (team : String) (m : Markup) (t : HtmlTable)
    (ht : m.table = some t) :
    ∃ chart, scrapeESPNDepthChart team m = Except.ok chart ∧
      chart.positions =
        (headerPositions t.headerCells).zip (t.bodyRows.map parseRow) ∧
      headerPositions t.headerCells = (t.headerCells.map strTrim).filter
        (fun s => decide (¬ (s = "" ∨ s = "Starter" ∨ s = "2nd" ∨ s = "3rd" ∨
          s = "4th" ∨ s = "5th"))) ∧
      (headerPositions t.headerCells = [] → chart.positions = []) := by
  refine ⟨{ team := strUpper team
            positions := parseRowsFrom (headerPositions t.headerCells) 0 t.bodyRows },
    ?_, ?_, headerPositions_eq_filter t.headerCells, ?_⟩
  · unfold scrapeESPNDepthChart
    rw [ht]
  · show parseRowsFrom _ 0 _ = _
    rw [parseRowsFrom_eq_zip, List.drop_zero]
  · intro h
    show parseRowsFrom _ 0 _ = _
    rw [parseRowsFrom_eq_zip, List.drop_zero, h]
    rfl

/-- C6 witness: a header of rank tokens only yields zero labels, so both body
rows are skipped and the chart is returned with an empty positions mapping. -/
theorem C6_witness :
    ∃ chart, scrapeESPNDepthChart "atl" rankOnlyMarkup = Except.ok chart ∧
      chart.positions =
        (headerPositions ["Starter", "2nd", "3rd"]).zip
          ([[mkLinkCell "Alpha Smith" "/nba/player/_/id/17/alpha-smith"],
            [mkLinkCell "Beta Jones" "/nba/player/_/id/42/beta-jones"]].map parseRow) ∧
      headerPositions ["Starter", "2nd", "3rd"] =
        (["Starter", "2nd", "3rd"].map strTrim).filter
          (fun s => decide (¬ (s = "" ∨ s = "Starter" ∨ s = "2nd" ∨ s = "3rd" ∨
            s = "4th" ∨ s = "5th"))) ∧
      (headerPositions ["Starter", "2nd", "3rd"] = [] → chart.positions = []) :=
  C6_theorem "atl" rankOnlyMarkup
    { headerCells := ["Starter", "2nd", "3rd"]
      bodyRows :=
        [[mkLinkCell "Alpha Smith" "/nba/player/_/id/17/alpha-smith"],
         [mkLinkCell "Beta Jones" "/nba/player/_/id/42/beta-jones"]] } rfl

/-- C1 (amended): every position's depth sequence is strictly increasing with
no duplicates, in source cell order, each depth being the 1-based column
index of its link-bearing cell among all cells of the row; gaps remain where
link-less cells were skipped. -/
theorem C1_theorem (team : String) (m : Markup) (chart : DepthChart)
    (pos : String) (entries : List DepthEntry)
    (hok : scrapeESPNDepthChart team m = Except.ok chart)
    (hmem : (pos, entries) ∈ chart.positions) :
    List.Chain' (· < ·) (entries.map DepthEntry.depth) ∧
    (entries.map DepthEntry.depth).Nodup ∧
    ∃ t row, m.table = some t ∧ row ∈ t.bodyRows ∧ entries = parseRow row ∧
      ∀ e ∈ entries, 1 ≤ e.depth ∧
        ∃ c, row[e.depth - 1]? = some c ∧ parseCell (e.depth - 1) c = some e := by
  cases hm : m.table with
  | none =>
    unfold scrapeESPNDepthChart at hok
    rw [hm] at hok
    exact Except.noConfusion hok
  | some t =>
    unfold scrapeESPNDepthChart at hok
    rw [hm] at hok
    injection hok with h'
    subst h'
    have hmem2 : (pos, entries) ∈
        parseRowsFrom (headerPositions t.headerCells) 0 t.bodyRows := hmem
    rw [parseRowsFrom_eq_zip, List.drop_zero] at hmem2
    have hz := List.of_mem_zip hmem2
    obtain ⟨row, hrow, hpr⟩ := List.mem_map.mp hz.2
    subst hpr
    refine ⟨parseRowFrom_chain row 0, ?_, t, row, rfl, hrow, rfl, ?_⟩
    · have hp := List.chain'_iff_pairwise.mp (parseRowFrom_chain row 0)
      exact hp.imp Nat.ne_of_lt
    · intro e he
      have h1 := parseRowFrom_depth_gt row 0 e he
      obtain ⟨c, hg, hp⟩ := parseRowFrom_mem_get row 0 e he
      refine ⟨h1, c, ?_, hp⟩
      simpa using hg

/-- C1 counterexample: the row of `gapMarkup` parses to depths 2 and 4, which
are not the gap-free 1-based ranks 1 and 2 the claim states. -/
theorem C1_counterexample :
    ∃ chart entries, scrapeESPNDepthChart "atl" gapMarkup = Except.ok chart ∧
      ("PG", entries) ∈ chart.positions ∧
      entries.map DepthEntry.depth ≠ List.range' 1 entries.length := by
  refine ⟨gapChart, gapEntries, by decide, by decide, by decide⟩

/-- C1 witness: the amended invariant instantiated on `gapMarkup`'s parse. -/
theorem C1_witness :
    List.Chain' (· < ·) (gapEntries.map DepthEntry.depth) ∧
    (gapEntries.map DepthEntry.depth).Nodup ∧
    ∃ t row, gapMarkup.table = some t ∧ row ∈ t.bodyRows ∧
      gapEntries = parseRow row ∧
      ∀ e ∈ gapEntries, 1 ≤ e.depth ∧
        ∃ c, row[e.depth - 1]? = some c ∧ parseCell (e.depth - 1) c = some e :=
  C1_theorem "atl" gapMarkup gapChart "PG" gapEntries (by decide) (by decide)

/-- C8: an entry's injury status comes from the substring heuristic on its
cell's full text: `O` present gives OUT, else `DD` present gives DAY-TO-DAY,
else NONE. -/
theorem C8_theorem (i : Nat) (cell : Cell) (e : DepthEntry)
    (h : parseCell i cell = some e) :
    (IsSubstring "O" cell.text → e.injuryStatus = InjuryStatus.OUT) ∧
    (¬ IsSubstring "O" cell.text → IsSubstring "DD" cell.text →
      e.injuryStatus = InjuryStatus.DAY_TO_DAY) ∧
    (¬ IsSubstring "O" cell.text → ¬ IsSubstring "DD" cell.text →
      e.injuryStatus = InjuryStatus.NONE) := by
  unfold parseCell at h
  cases hl : cell.link with
  | none =>
    rw [hl] at h
    exact Option.noConfusion h
  | some link =>
    rw [hl] at h
    injection h with h'
    subst h'
    refine ⟨?_, ?_, ?_⟩
    · intro hO
      have hO' : strIncludes cell.text "O" = true := (strIncludes_iff _ _).mpr hO
      simp [hO']
    · intro hnO hDD
      have hO' : strIncludes cell.text "O" = false := by
        cases hb : strIncludes cell.text "O" with
        | true => exact absurd ((strIncludes_iff _ _).mp hb) hnO
        | false => rfl
      have hDD' : strIncludes cell.text "DD" = true :=
        (strIncludes_iff _ _).mpr hDD
      simp [hO', hDD']
    · intro hnO hnDD
      have hO' : strIncludes cell.text "O" = false := by
        cases hb : strIncludes cell.text "O" with
        | true => exact absurd ((strIncludes_iff _ _).mp hb) hnO
        | false => rfl
      have hDD' : strIncludes cell.text "DD" = false := by
        cases hb : strIncludes cell.text "DD" with
        | true => exact absurd ((strIncludes_iff _ _).mp hb) hnDD
        | false => rfl
      simp [hO', hDD']

/-- C8 witness: instantiated on a cell whose text carries the `O` marker. -/
theorem C8_witness :
    (IsSubstring "O" statusCellOut.text →
      statusEntryOut.injuryStatus = InjuryStatus.OUT) ∧
    (¬ IsSubstring "O" statusCellOut.text →
      IsSubstring "DD" statusCellOut.text →
      statusEntryOut.injuryStatus = InjuryStatus.DAY_TO_DAY) ∧
    (¬ IsSubstring "O" statusCellOut.text →
      ¬ IsSubstring "DD" statusCellOut.text →
      statusEntryOut.injuryStatus = InjuryStatus.NONE) :=
  C8_theorem 0 statusCellOut statusEntryOut (by decide)

/-- C2: the resolver's match predicate is case-insensitive substring
containment; a `null` result means no entry anywhere matches; a non-null
result is the first matching entry of the first position holding a match,
positions scanned in stored order and entries in depth order. -/
theorem C2_theorem (chart : DepthChart) (q : String) :
    (∀ p : DepthEntry, nameMatches q p = true ↔
      IsSubstring (strLower q) (strLower p.name)) ∧
    (getBackupForPlayer chart q = none ↔
      ∀ pe ∈ chart.positions, ∀ p ∈ pe.2, nameMatches q p = false) ∧
    (∀ r, getBackupForPlayer chart q = some r →
      nameMatches q r.injuredPlayer = true ∧
      ∃ k i players,
        chart.positions[k]? = some (r.position, players) ∧
        (∀ (j : Nat) (pe : String × List DepthEntry), j < k →
          chart.positions[j]? = some pe → ∀ p ∈ pe.2, nameMatches q p = false) ∧
        players[i]? = some r.injuredPlayer ∧
        (∀ (j : Nat) (p : DepthEntry), j < i → players[j]? = some p →
          nameMatches q p = false)) := by
  refine ⟨?_, ?_, ?_⟩
  · intro p
    exact strIncludes_iff (strLower p.name) (strLower q)
  · exact findInPositions_eq_none q chart.positions
  · intro r h
    obtain ⟨k, players, hk, hbef, after, hfp, _, _⟩ :=
      findInPositions_eq_some q chart.positions r h
    obtain ⟨i, hget, hm, hbef2, _⟩ :=
      findInPlayers_eq_some q players r.injuredPlayer after hfp
    exact ⟨hm, k, i, players, hk, hbef, hget, hbef2⟩

/-- C2 witness: instantiated at the chart holding `Trae Young` and the
lowercase partial query `trae`. -/
theorem C2_witness :
    (∀ p : DepthEntry, nameMatches "trae" p = true ↔
      IsSubstring (strLower "trae") (strLower p.name)) ∧
    (getBackupForPlayer traeChart "trae" = none ↔
      ∀ pe ∈ traeChart.positions, ∀ p ∈ pe.2, nameMatches "trae" p = false) ∧
    (∀ r, getBackupForPlayer traeChart "trae" = some r →
      nameMatches "trae" r.injuredPlayer = true ∧
      ∃ k i players,
        traeChart.positions[k]? = some (r.position, players) ∧
        (∀ (j : Nat) (pe : String × List DepthEntry), j < k →
          traeChart.positions[j]? = some pe →
          ∀ p ∈ pe.2, nameMatches "trae" p = false) ∧
        players[i]? = some r.injuredPlayer ∧
        (∀ (j : Nat) (p : DepthEntry), j < i → players[j]? = some p →
          nameMatches "trae" p = false)) :=
  C2_theorem traeChart "trae"

/-- C3: a non-null resolver result wraps the matched entry at some index `i`
of its position's sequence; `primaryBackup` is the entry at `i + 1` when one
exists, `candidates` is the window at indices `i+1 .. i+3` in depth order,
`primaryBackup` is the window's head, and the window is at most 3 long and at
most the number of entries after the match. -/
theorem C3_theorem (chart : DepthChart) (q : String) (r : BackupResult)
    (h : getBackupForPlayer chart q = some r) :
    ∃ players i, (r.position, players) ∈ chart.positions ∧
      players[i]? = some r.injuredPlayer ∧
      r.primaryBackup = players[i + 1]? ∧
      r.allBackups = (players.drop (i + 1)).take 3 ∧
      r.primaryBackup = r.allBackups.head? ∧
      r.allBackups.length ≤ 3 ∧
      r.allBackups.length ≤ players.length - (i + 1) := by
  obtain ⟨k, players, hk, _, after, hfp, hpb, hab⟩ :=
    findInPositions_eq_some q chart.positions r h
  obtain ⟨i, hget, _, _, hrest⟩ :=
    findInPlayers_eq_some q players r.injuredPlayer after hfp
  subst hrest
  refine ⟨players, i, List.getElem?_mem hk, hget, ?_, hab, ?_, ?_, ?_⟩
  · rw [hpb, List.head?_drop]
  · rw [hpb, hab, head?_take_three]
  · rw [hab, List.length_take]
    exact Nat.min_le_left _ _
  · rw [hab, List.length_take, List.length_drop]
    exact Nat.min_le_right _ _

/-- C3 witness: instantiated on the five-deep rotation, matching its second
entry, so the window is the three entries at depths 3, 4, 5 and the primary
backup heads it. -/
theorem C3_witness :
    ∃ players i,
      (("C" : String), players) ∈ deepChart.positions ∧
      players[i]? = some (plainEntry 2 "Duo Baker") ∧
      (some (plainEntry 3 "Tres Clark") : Option DepthEntry) = players[i + 1]? ∧
      ([plainEntry 3 "Tres Clark", plainEntry 4 "Quat Davis",
        plainEntry 5 "Quin Evans"] : List DepthEntry) =
          (players.drop (i + 1)).take 3 ∧
      (some (plainEntry 3 "Tres Clark") : Option DepthEntry) =
        ([plainEntry 3 "Tres Clark", plainEntry 4 "Quat Davis",
          plainEntry 5 "Quin Evans"] : List DepthEntry).head? ∧
      ([plainEntry 3 "Tres Clark", plainEntry 4 "Quat Davis",
        plainEntry 5 "Quin Evans"] : List DepthEntry).length ≤ 3 ∧
      ([plainEntry 3 "Tres Clark", plainEntry 4 "Quat Davis",
        plainEntry 5 "Quin Evans"] : List DepthEntry).length ≤
          players.length - (i + 1) :=
  C3_theorem deepChart "duo"
    { position := "C"
      injuredPlayer := plainEntry 2 "Duo Baker"
      primaryBackup := some (plainEntry 3 "Tres Clark")
      allBackups := [plainEntry 3 "Tres Clark", plainEntry 4 "Quat Davis",
        plainEntry 5 "Quin Evans"] } (by decide)

/-- Every name matches the empty query, since every string contains the empty
string. -/
theorem nameMatches_empty (p : DepthEntry) : nameMatches "" p = true := by
  unfold nameMatches
  exact strIncludes_empty _

/-- With the empty query, the scan of a position returns its first entry and
the entries after it, or nothing when the position is empty. -/
theorem findInPlayers_empty_query (l : List DepthEntry) :
    findInPlayers "" l = l.head?.map (fun p => (p, l.tail)) := by
  cases l with
  | nil => rfl
  | cons p t =>
    rw [findInPlayers, if_pos (nameMatches_empty p)]
    rfl

/-- With the empty query, the position scan lands on the first position that
has at least one entry and returns its starter as the match. -/
theorem findInPositions_empty_query :
    ∀ (ps : List (String × List DepthEntry)) (pe : String × List DepthEntry),
      ps.find? (fun a => !a.2.isEmpty) = some pe →
      ∃ r, findInPositions "" ps = some r ∧ r.position = pe.1 ∧
        pe.2.head? = some r.injuredPlayer := by
  intro ps
  induction ps with
  | nil =>
    intro pe h
    exact Option.noConfusion h
  | cons a rest ih =>
    obtain ⟨position, players⟩ := a
    intro pe h
    cases players with
    | nil =>
      rw [List.find?_cons_of_neg _ (by simp)] at h
      rw [findInPositions]
      exact ih pe h
    | cons p0 t =>
      rw [List.find?_cons_of_pos _ (by simp)] at h
      injection h with h'
      subst h'
      rw [findInPositions]
      have hfp : findInPlayers "" (p0 :: t) = some (p0, t) := by
        rw [findInPlayers, if_pos (nameMatches_empty p0)]
      rw [hfp]
      exact ⟨_, rfl, rfl, rfl⟩

/-- C9: resolving the empty query returns the starter of the first non-empty
position, and returns `null` exactly when every position's sequence is
empty. -/
theorem C9_theorem (chart : DepthChart) :
    (getBackupForPlayer chart "" = none ↔
      ∀ pe ∈ chart.positions, pe.2 = []) ∧
    (∀ pe, chart.positions.find? (fun a => !a.2.isEmpty) = some pe →
      ∃ r, getBackupForPlayer chart "" = some r ∧ r.position = pe.1 ∧
        pe.2.head? = some r.injuredPlayer) := by
  constructor
  · rw [getBackupForPlayer, findInPositions_eq_none]
    constructor
    · intro h pe hpe
      cases hpe2 : pe.2 with
      | nil => rfl
      | cons p rest =>
        have := h pe hpe p (by rw [hpe2]; exact List.mem_cons_self p rest)
        rw [nameMatches_empty p] at this
        exact Bool.noConfusion this
    · intro h pe hpe p hp
      rw [h pe hpe] at hp
      exact absurd hp (List.not_mem_nil p)
  · intro pe h
    exact findInPositions_empty_query chart.positions pe h

/-- C9 witness: on a chart whose first position is empty, the empty query
resolves to the starter of the second position. -/
theorem C9_witness :
    (getBackupForPlayer emptyFirstChart "" = none ↔
      ∀ pe ∈ emptyFirstChart.positions, pe.2 = []) ∧
    (∀ pe, emptyFirstChart.positions.find? (fun a => !a.2.isEmpty) = some pe →
      ∃ r, getBackupForPlayer emptyFirstChart "" = some r ∧ r.position = pe.1 ∧
        pe.2.head? = some r.injuredPlayer) :=
  C9_theorem emptyFirstChart
